import Mathlib

/-
Verification of the upload lifecycle tracker in
`packages/website/components/contexts/uploadsContext.js`.

The tracker state and operations are embedded shallowly:
  * `FileProgress` is one tracked entry (the values of `progress.files`);
    a file's identity (reference equality of the input file handle) is
    embedded as a `Nat` tag `inputFile`.
  * `TrackerState` carries the React state of `UploadsProvider`
    (`progress.files`, `filesToUpload`, the module-level `client`) plus
    instrumentation observing the external calls the claims speak about
    (`putLog` for `client.put`, `refetchCount` for `refetch()`, `inflight`
    for `client.put` promises not yet settled).
  * `Event`/`step`/`exec` give the event-driven execution model: handler
    invocations are discrete and non-preemptible, and a transfer
    settlement or progress tick is only enabled while its put is in
    flight.

The progress primitives `initialize`, `updateFileProgress`,
`markFileCompleted` and `markFileFailed` are imported by the source from
`./uploadProgressContext`, a module not part of this slice of the
repository; they are modelled from the spec and marked as such.
-/

namespace UploadsTracker

/-- Upload status enumeration, `STATUS` in the source:
`pending | uploading | completed | failed`. -/
inductive Status where
  | pending
  | uploading
  | completed
  | failed
deriving DecidableEq, Repr

/-- Terminal statuses per the spec: `completed` and `failed`. -/
def Status.isTerminal : Status → Bool
  | .completed => true
  | .failed => true
  | _ => false

/-- One tracked entry (a value of `progress.files`): the input-file
identity (reference equality, embedded as a `Nat` tag), display name,
status, cumulative bytes transferred, and the recorded error payload
(opaque, embedded as a `Nat`). -/
structure FileProgress where
  inputFile : Nat
  name : String
  status : Status
  bytes : Nat
  error : Option Nat
deriving DecidableEq, Repr

/-- Identities of a list of entries. -/
def idsOf (l : List FileProgress) : List Nat := l.map (·.inputFile)

/-- Entry tracked for identity `id`: first entry of the list whose
`inputFile` is `id`. -/
def findEntry (id : Nat) (l : List FileProgress) : Option FileProgress :=
  l.find? fun e => e.inputFile == id

/-- Modelled from the spec: worker for `initialize` from
`uploadProgressContext` (module absent from this repository slice),
keeping, of the given entries, the first occurrence of each identity not
in `seen`. -/
def initFilesAux (seen : List Nat) : List FileProgress → List FileProgress
  | [] => []
  | e :: rest =>
    if e.inputFile ∈ seen then initFilesAux seen rest
    else e :: initFilesAux (e.inputFile :: seen) rest

/-- Modelled from the spec: `initialize` from `uploadProgressContext`
(module absent from this repository slice) replaces the tracked mapping
with the given entries.  The spec fixes its semantics: "at most one
lifecycle entry exists per distinct file identity at any time" and
"re-submission of an already-tracked identity is a no-op for that
identity", so for each identity the first occurrence in the given list is
kept (callers pass existing entries before new files). -/
def initFiles (l : List FileProgress) : List FileProgress := initFilesAux [] l

/-- Per-entry action of `updateFileProgress` on one entry. -/
def tickEntry (id size : Nat) (e : FileProgress) : FileProgress :=
  if e.inputFile = id ∧ e.status = Status.uploading then { e with bytes := size } else e

/-- Modelled from the spec: `updateFileProgress` (reportProgress)
"updates the byte counter for an `uploading` entry.  No-op ... if the
identity is not currently `uploading`". -/
def updateFileProgress (id size : Nat) (l : List FileProgress) : List FileProgress :=
  l.map (tickEntry id size)

/-- Per-entry action of `markFileCompleted` on one entry. -/
def completeEntry (id : Nat) (e : FileProgress) : FileProgress :=
  if e.inputFile = id ∧ e.status.isTerminal = false then { e with status := Status.completed }
  else e

/-- Modelled from the spec: `markFileCompleted` (reportCompleted)
"transitions the entry to `completed`.  Fails silently ... if the
identity has no entry or is already terminal". -/
def markFileCompleted (id : Nat) (l : List FileProgress) : List FileProgress :=
  l.map (completeEntry id)

/-- Per-entry action of `markFileFailed` on one entry. -/
def failEntry (id err : Nat) (e : FileProgress) : FileProgress :=
  if e.inputFile = id ∧ e.status.isTerminal = false then
    { e with status := Status.failed, error := some err }
  else e

/-- Modelled from the spec: `markFileFailed` (reportFailed) "transitions
the entry to `failed`, recording the error"; per the lifecycle it
"transitions exactly once to either `completed` ... or `failed`", so a
terminal entry is left alone. -/
def markFileFailed (id err : Nat) (l : List FileProgress) : List FileProgress :=
  l.map (failEntry id err)

/-- State of `UploadsProvider` plus instrumentation of external calls.
`files` is `Object.values(progress.files)`, `filesToUpload` the state of
the same name, `clientConstructed` whether the module-level `client` is
non-null.  `inflight` holds identities whose `client.put` promise is
pending, `putLog` every identity `client.put` was invoked for,
`refetchCount` the number of `refetch()` invocations and
`clientConstructions` the number of `new Web3Storage(...)` evaluations. -/
structure TrackerState where
  files : List FileProgress
  filesToUpload : List FileProgress
  inflight : List Nat
  putLog : List Nat
  refetchCount : Nat
  clientConstructed : Bool
  clientConstructions : Nat
deriving DecidableEq, Repr

/-- Initial provider state: empty lists, no client. -/
def initState : TrackerState :=
  { files := [], filesToUpload := [], inflight := [], putLog := [], refetchCount := 0,
    clientConstructed := false, clientConstructions := 0 }

/-- `uploadFiles` (source lines 126-138): constructs the shared `client`
if it is not yet set, then calls
`initialize(Object.values(progress.files).concat(files))`; a submitted
file becomes a fresh entry with initial status `pending` (spec: "Initial
state: `pending`"). -/
def uploadFiles (fs : List (Nat × String)) (s : TrackerState) : TrackerState :=
  { s with
    clientConstructed := true
    clientConstructions :=
      if s.clientConstructed then s.clientConstructions else s.clientConstructions + 1
    files := initFiles (s.files ++ fs.map fun p =>
      { inputFile := p.1, name := p.2, status := Status.pending, bytes := 0, error := none }) }

/-- `clearUploadedFiles` (source lines 141-144): re-initializes with the
entries whose status is not `completed`, and returns
`!!Object.values(progress.files).length`, i.e. whether the pre-call
tracked set was non-empty. -/
def clearUploadedFiles (s : TrackerState) : Bool × TrackerState :=
  (!s.files.isEmpty,
    { s with files := initFiles (s.files.filter fun e => e.status ≠ Status.completed) })

/-- `newFilesToUpload` (source lines 152-154): entries of
`progress.files` whose `inputFile` is not found in `filesToUpload`. -/
def newFilesToUpload (s : TrackerState) : List FileProgress :=
  s.files.filter fun e => !(s.filesToUpload.any fun t => t.inputFile == e.inputFile)

/-- Modelled from the spec: the pending→uploading transition of an entry
whose transfer is being initiated happens in the absent
`uploadProgressContext`; the spec places it at initiation ("transitions
to `uploading` when transfer begins").  Entries outside the initiated
list `nf` are untouched. -/
def startEntry (nf : List FileProgress) (e : FileProgress) : FileProgress :=
  if nf.any fun f => f.inputFile == e.inputFile then { e with status := Status.uploading }
  else e

/-- The `useEffect` body (source lines 151-181): when `newFilesToUpload`
is non-empty, appends it to `filesToUpload` and invokes `client.put`
once per new entry (recorded in `putLog`/`inflight`); the initiated
entries transition to `uploading` (see `startEntry`). -/
def effectRun (s : TrackerState) : TrackerState :=
  let nf := newFilesToUpload s
  if nf.isEmpty then s
  else
    { s with
      filesToUpload := s.filesToUpload ++ nf
      files := s.files.map (startEntry nf)
      inflight := s.inflight ++ idsOf nf
      putLog := s.putLog ++ idsOf nf }

/-- Settlement of the `client.put` promise for `id` without error
(source lines 162-178): the handler resumes after `await`, calls
`markFileCompleted(file)` and then `refetch()`. -/
def transferOk (id : Nat) (s : TrackerState) : TrackerState :=
  { s with
    files := markFileCompleted id s.files
    inflight := s.inflight.erase id
    refetchCount := s.refetchCount + 1 }

/-- Rejection of the `client.put` promise for `id` (catch branch, source
lines 170-174): the handler calls `markFileFailed(file, error)` and
returns, so `markFileCompleted` and `refetch` are not reached. -/
def transferErr (id err : Nat) (s : TrackerState) : TrackerState :=
  { s with
    files := markFileFailed id err s.files
    inflight := s.inflight.erase id }

/-- `onStoredChunk` progress callback of an in-flight put (source lines
166-168): calls `updateFileProgress(file, size)`. -/
def progressTick (id size : Nat) (s : TrackerState) : TrackerState :=
  { s with files := updateFileProgress id size s.files }

/-- Discrete handler invocations of the tracker: a `submit` of the full
desired file list (`uploadFiles`), the clear operation, a run of the
upload-initiation effect, and the asynchronous signals of an in-flight
transfer (progress tick, fulfilment, rejection). -/
inductive Event where
  | submit (fs : List (Nat × String))
  | clear
  | effect
  | tick (id size : Nat)
  | ok (id : Nat)
  | err (id e : Nat)
deriving DecidableEq, Repr

/-- One handler invocation.  Transfer signals are only enabled while the
corresponding `client.put` promise is in flight. -/
def step (s : TrackerState) : Event → Option TrackerState
  | .submit fs => some (uploadFiles fs s)
  | .clear => some (clearUploadedFiles s).2
  | .effect => some (effectRun s)
  | .tick id size => if id ∈ s.inflight then some (progressTick id size s) else none
  | .ok id => if id ∈ s.inflight then some (transferOk id s) else none
  | .err id e => if id ∈ s.inflight then some (transferErr id e s) else none

/-- Execution of a sequence of handler invocations. -/
def exec (s : TrackerState) : List Event → Option TrackerState
  | [] => some s
  | ev :: rest =>
    match step s ev with
    | none => none
    | some s' => exec s' rest

/-- Whether an event is the successful settlement of a transfer. -/
def Event.isOk : Event → Bool
  | .ok _ => true
  | _ => false

/-- One fetched page of the account's upload listing, as consumed by
`getUploadsCallback` (source lines 183-208): `updatedUploads.results`
(records are opaque here) and `updatedUploads.meta.count`. -/
structure UploadsPage where
  results : List Nat
  count : Nat
deriving DecidableEq, Repr

/-- The uploads-listing React state touched by `getUploadsCallback`:
`uploads` and `totalUploads`. -/
structure UploadsListState where
  uploads : List Nat
  totalUploads : Nat
deriving DecidableEq, Repr

/-- `getUploadsCallback` (source lines 183-208), state part: stores the
fetched `results` with `setUploads`, and runs
`if (updatedUploads.meta.count) setTotalUploads(updatedUploads.meta.count)`
— `totalUploads` is updated only when the fetched count is truthy
(non-zero). -/
def getUploadsCallback (page : UploadsPage) (s : UploadsListState) : UploadsListState :=
  { uploads := page.results
    totalUploads := if page.count ≠ 0 then page.count else s.totalUploads }

/-- Demo trace: one file submitted, initiated, and completed. -/
def oneCompletedTrace : List Event := [Event.submit [(0, "a")], Event.effect, Event.ok 0]

/-- Demo state reached by `oneCompletedTrace`. -/
def oneCompletedState : TrackerState := (exec initState oneCompletedTrace).getD initState

/-- The single entry of `oneCompletedState`. -/
def completedEntry0 : FileProgress :=
  { inputFile := 0, name := "a", status := Status.completed, bytes := 0, error := none }

/-- Demo trace: one file submitted and initiated, still in flight. -/
def uploadingTrace : List Event := [Event.submit [(0, "a")], Event.effect]

/-- Demo state reached by `uploadingTrace`. -/
def uploadingState : TrackerState := (exec initState uploadingTrace).getD initState

/-- The single entry of `uploadingState`. -/
def uploadingEntry0 : FileProgress :=
  { inputFile := 0, name := "a", status := Status.uploading, bytes := 0, error := none }

/-- Demo trace: two files submitted together and both initiated. -/
def twoUploadingTrace : List Event := [Event.submit [(0, "a"), (1, "b")], Event.effect]

/-- Demo state reached by `twoUploadingTrace`. -/
def twoUploadingState : TrackerState := (exec initState twoUploadingTrace).getD initState

/-- Demo trace: a file is submitted, initiated, and then resubmitted in
a longer list. -/
def dupSubmitTrace : List Event :=
  [Event.submit [(0, "a")], Event.effect, Event.submit [(0, "a"), (1, "b")]]

/-- Demo state reached by `dupSubmitTrace`. -/
def dupSubmitState : TrackerState := (exec initState dupSubmitTrace).getD initState

theorem findEntry_cons (id : Nat) (e : FileProgress) (l : List FileProgress) :
    findEntry id (e :: l) = if e.inputFile = id then some e else findEntry id l := by
  simp only [findEntry, List.find?]
  by_cases h : e.inputFile = id
  · simp [h]
  · have hb : (e.inputFile == id) = false := by simpa using h
    simp [hb, h]

theorem findEntry_mem {id : Nat} {l : List FileProgress} {e : FileProgress}
    (h : findEntry id l = some e) : e ∈ l ∧ e.inputFile = id := by
  refine ⟨List.mem_of_find?_eq_some h, ?_⟩
  have := List.find?_some h
  simpa using this

theorem mem_idsOf {a : Nat} {l : List FileProgress} :
    a ∈ idsOf l ↔ ∃ e, e ∈ l ∧ e.inputFile = a := by
  simp [idsOf, List.mem_map]

theorem findEntry_eq_none {id : Nat} {l : List FileProgress} (h : id ∉ idsOf l) :
    findEntry id l = none := by
  induction l with
  | nil => rfl
  | cons e rest ih =>
    rw [findEntry_cons]
    have h1 : e.inputFile ≠ id := by
      intro hc
      exact h (mem_idsOf.mpr ⟨e, List.mem_cons_self e rest, hc⟩)
    rw [if_neg h1]
    exact ih fun hc => h (by simp [idsOf] at hc ⊢; tauto)

theorem findEntry_isSome_of_mem_ids {a : Nat} {l : List FileProgress} (h : a ∈ idsOf l) :
    ∃ e, findEntry a l = some e := by
  induction l with
  | nil => simp [idsOf] at h
  | cons e rest ih =>
    rw [findEntry_cons]
    by_cases h1 : e.inputFile = a
    · exact ⟨e, if_pos h1⟩
    · rw [if_neg h1]
      refine ih ?_
      rcases mem_idsOf.mp h with ⟨x, hx, hxa⟩
      rcases List.mem_cons.mp hx with h2 | h2
      · exact absurd (h2 ▸ hxa) h1
      · exact mem_idsOf.mpr ⟨x, h2, hxa⟩

theorem findEntry_append_left {id : Nat} {l₁ : List FileProgress} {e : FileProgress}
    (l₂ : List FileProgress) (h : findEntry id l₁ = some e) :
    findEntry id (l₁ ++ l₂) = some e := by
  induction l₁ with
  | nil => simp [findEntry, List.find?] at h
  | cons x rest ih =>
    rw [findEntry_cons] at h
    rw [List.cons_append, findEntry_cons]
    by_cases h1 : x.inputFile = id
    · rw [if_pos h1] at h ⊢; exact h
    · rw [if_neg h1] at h ⊢; exact ih h

theorem findEntry_map (f : FileProgress → FileProgress)
    (hf : ∀ e, (f e).inputFile = e.inputFile) (id : Nat) (l : List FileProgress) :
    findEntry id (l.map f) = (findEntry id l).map f := by
  induction l with
  | nil => rfl
  | cons e rest ih =>
    rw [List.map_cons, findEntry_cons, findEntry_cons, hf]
    by_cases h : e.inputFile = id
    · rw [if_pos h, if_pos h]; rfl
    · rw [if_neg h, if_neg h]; exact ih

theorem idsOf_map (f : FileProgress → FileProgress)
    (hf : ∀ e, (f e).inputFile = e.inputFile) (l : List FileProgress) :
    idsOf (l.map f) = idsOf l := by
  simp only [idsOf, List.map_map]
  exact List.map_congr_left fun e _ => hf e

theorem idsOf_append (l₁ l₂ : List FileProgress) :
    idsOf (l₁ ++ l₂) = idsOf l₁ ++ idsOf l₂ := List.map_append _ _ _

theorem idsOf_filter_sublist (p : FileProgress → Bool) (l : List FileProgress) :
    (idsOf (l.filter p)).Sublist (idsOf l) :=
  List.Sublist.map _ (List.filter_sublist l)

theorem findEntry_of_mem {l : List FileProgress} {x : FileProgress}
    (hnd : (idsOf l).Nodup) (hx : x ∈ l) : findEntry x.inputFile l = some x := by
  induction l with
  | nil => cases hx
  | cons e rest ih =>
    rw [findEntry_cons]
    rcases List.mem_cons.mp hx with h | h
    · subst h; rw [if_pos rfl]
    · have hnd' := hnd
      rw [idsOf, List.map_cons, List.nodup_cons] at hnd'
      have h1 : e.inputFile ≠ x.inputFile := by
        intro hc
        exact hnd'.1 (hc ▸ mem_idsOf.mpr ⟨x, h, rfl⟩)
      rw [if_neg h1]
      exact ih hnd'.2 h

theorem findEntry_filter_pos {p : FileProgress → Bool} {id : Nat} {l : List FileProgress}
    {e : FileProgress} (hnd : (idsOf l).Nodup) (h : findEntry id l = some e)
    (hp : p e = true) : findEntry id (l.filter p) = some e := by
  induction l with
  | nil => simp [findEntry, List.find?] at h
  | cons x rest ih =>
    have hnd' := hnd
    rw [idsOf, List.map_cons, List.nodup_cons] at hnd'
    rw [findEntry_cons] at h
    by_cases h1 : x.inputFile = id
    · rw [if_pos h1] at h
      injection h with h
      subst h
      rw [List.filter_cons, if_pos hp, findEntry_cons, if_pos h1]
    · rw [if_neg h1] at h
      rw [List.filter_cons]
      by_cases h2 : p x = true
      · rw [if_pos h2, findEntry_cons, if_neg h1]
        exact ih hnd'.2 h
      · rw [if_neg h2]
        exact ih hnd'.2 h

theorem findEntry_filter_neg {p : FileProgress → Bool} {id : Nat} {l : List FileProgress}
    {e : FileProgress} (hnd : (idsOf l).Nodup) (h : findEntry id l = some e)
    (hp : p e = false) : findEntry id (l.filter p) = none := by
  induction l with
  | nil => simp [findEntry, List.find?] at h
  | cons x rest ih =>
    have hnd' := hnd
    rw [idsOf, List.map_cons, List.nodup_cons] at hnd'
    rw [findEntry_cons] at h
    by_cases h1 : x.inputFile = id
    · rw [if_pos h1] at h
      injection h with h
      subst h
      rw [List.filter_cons, if_neg (by simp [hp]), findEntry_eq_none]
      intro hc
      have := idsOf_filter_sublist p rest
      exact hnd'.1 (h1 ▸ this.mem hc)
    · rw [if_neg h1] at h
      rw [List.filter_cons]
      by_cases h2 : p x = true
      · rw [if_pos h2, findEntry_cons, if_neg h1]
        exact ih hnd'.2 h
      · rw [if_neg h2]
        exact ih hnd'.2 h

theorem findEntry_initFilesAux (id : Nat) (l : List FileProgress) :
    ∀ seen : List Nat, id ∉ seen → findEntry id (initFilesAux seen l) = findEntry id l := by
  induction l with
  | nil => intro seen _; rfl
  | cons e rest ih =>
    intro seen hid
    rw [initFilesAux]
    by_cases hmem : e.inputFile ∈ seen
    · rw [if_pos hmem, ih seen hid, findEntry_cons,
        if_neg (fun h : e.inputFile = id => hid (h ▸ hmem))]
    · rw [if_neg hmem, findEntry_cons, findEntry_cons]
      by_cases he : e.inputFile = id
      · rw [if_pos he, if_pos he]
      · rw [if_neg he, if_neg he]
        refine ih (e.inputFile :: seen) ?_
        intro hc
        rcases List.mem_cons.mp hc with h | h
        · exact he h.symm
        · exact hid h

theorem findEntry_initFiles (id : Nat) (l : List FileProgress) :
    findEntry id (initFiles l) = findEntry id l :=
  findEntry_initFilesAux id l [] (List.not_mem_nil id)

theorem mem_of_mem_initFilesAux {e : FileProgress} {l : List FileProgress} :
    ∀ {seen : List Nat}, e ∈ initFilesAux seen l → e ∈ l := by
  induction l with
  | nil => intro seen h; cases h
  | cons x rest ih =>
    intro seen h
    rw [initFilesAux] at h
    by_cases hmem : x.inputFile ∈ seen
    · rw [if_pos hmem] at h
      exact List.mem_cons_of_mem x (ih h)
    · rw [if_neg hmem] at h
      rcases List.mem_cons.mp h with h1 | h1
      · exact h1 ▸ List.mem_cons_self x rest
      · exact List.mem_cons_of_mem x (ih h1)

theorem initFilesAux_ids_nodup (l : List FileProgress) :
    ∀ seen : List Nat,
      (idsOf (initFilesAux seen l)).Nodup ∧ ∀ a ∈ idsOf (initFilesAux seen l), a ∉ seen := by
  induction l with
  | nil => intro seen; exact ⟨List.nodup_nil, by simp [initFilesAux, idsOf]⟩
  | cons e rest ih =>
    intro seen
    rw [initFilesAux]
    by_cases hmem : e.inputFile ∈ seen
    · rw [if_pos hmem]; exact ih seen
    · rw [if_neg hmem]
      obtain ⟨hnd, hsub⟩ := ih (e.inputFile :: seen)
      constructor
      · rw [idsOf, List.map_cons, List.nodup_cons]
        exact ⟨fun hc => (hsub _ hc) (List.mem_cons_self _ _), hnd⟩
      · intro a ha
        rw [idsOf, List.map_cons, List.mem_cons] at ha
        rcases ha with h | h
        · exact fun hc => hmem (h ▸ hc)
        · exact fun hc => (hsub a h) (List.mem_cons_of_mem _ hc)

theorem initFiles_ids_nodup (l : List FileProgress) : (idsOf (initFiles l)).Nodup :=
  (initFilesAux_ids_nodup l []).1

theorem initFilesAux_eq_self (l : List FileProgress) :
    ∀ seen : List Nat, (idsOf l).Nodup → (∀ a ∈ idsOf l, a ∉ seen) →
      initFilesAux seen l = l := by
  induction l with
  | nil => intro seen _ _; rfl
  | cons e rest ih =>
    intro seen hnd hdis
    have hnd' := hnd
    rw [idsOf, List.map_cons, List.nodup_cons] at hnd'
    have hes : e.inputFile ∉ seen :=
      hdis e.inputFile (by rw [idsOf, List.map_cons]; exact List.mem_cons_self _ _)
    rw [initFilesAux, if_neg hes]
    congr 1
    refine ih (e.inputFile :: seen) hnd'.2 ?_
    intro a ha hc
    rcases List.mem_cons.mp hc with h | h
    · exact hnd'.1 (h ▸ ha)
    · exact hdis a (by rw [idsOf, List.map_cons]; exact List.mem_cons_of_mem _ ha) h

theorem initFiles_eq_self {l : List FileProgress} (h : (idsOf l).Nodup) :
    initFiles l = l :=
  initFilesAux_eq_self l [] h (by simp)

theorem tickEntry_inputFile (id size : Nat) (e : FileProgress) :
    (tickEntry id size e).inputFile = e.inputFile := by
  unfold tickEntry; split <;> rfl

theorem tickEntry_status (id size : Nat) (e : FileProgress) :
    (tickEntry id size e).status = e.status := by
  unfold tickEntry; split <;> rfl

theorem completeEntry_inputFile (id : Nat) (e : FileProgress) :
    (completeEntry id e).inputFile = e.inputFile := by
  unfold completeEntry; split <;> rfl

theorem failEntry_inputFile (id err : Nat) (e : FileProgress) :
    (failEntry id err e).inputFile = e.inputFile := by
  unfold failEntry; split <;> rfl

theorem startEntry_inputFile (nf : List FileProgress) (e : FileProgress) :
    (startEntry nf e).inputFile = e.inputFile := by
  unfold startEntry; split <;> rfl

theorem completeEntry_of_ne {id : Nat} {e : FileProgress} (h : e.inputFile ≠ id) :
    completeEntry id e = e := by
  unfold completeEntry
  rw [if_neg]
  rintro ⟨h1, _⟩
  exact h h1

theorem failEntry_of_ne {id err : Nat} {e : FileProgress} (h : e.inputFile ≠ id) :
    failEntry id err e = e := by
  unfold failEntry
  rw [if_neg]
  rintro ⟨h1, _⟩
  exact h h1

theorem completeEntry_of_terminal {id : Nat} {e : FileProgress}
    (h : e.status.isTerminal = true) : completeEntry id e = e := by
  unfold completeEntry
  rw [if_neg]
  rintro ⟨_, h2⟩
  rw [h] at h2
  cases h2

theorem failEntry_of_terminal {id err : Nat} {e : FileProgress}
    (h : e.status.isTerminal = true) : failEntry id err e = e := by
  unfold failEntry
  rw [if_neg]
  rintro ⟨_, h2⟩
  rw [h] at h2
  cases h2

theorem tickEntry_of_terminal {id size : Nat} {e : FileProgress}
    (h : e.status.isTerminal = true) : tickEntry id size e = e := by
  unfold tickEntry
  rw [if_neg]
  rintro ⟨_, h2⟩
  rw [h2] at h
  cases h

theorem startEntry_of_not_mem {nf : List FileProgress} {e : FileProgress}
    (h : e.inputFile ∉ idsOf nf) : startEntry nf e = e := by
  unfold startEntry
  rw [if_neg]
  intro hc
  rcases List.any_eq_true.mp hc with ⟨x, hx, hbeq⟩
  exact h (mem_idsOf.mpr ⟨x, hx, by simpa using hbeq⟩)

theorem startEntry_of_mem {nf : List FileProgress} {e : FileProgress}
    (h : e.inputFile ∈ idsOf nf) :
    startEntry nf e = { e with status := Status.uploading } := by
  unfold startEntry
  rw [if_pos]
  rcases mem_idsOf.mp h with ⟨x, hx, hxe⟩
  exact List.any_eq_true.mpr ⟨x, hx, by simp [hxe]⟩

theorem mem_newFilesToUpload {s : TrackerState} {x : FileProgress} :
    x ∈ newFilesToUpload s ↔ x ∈ s.files ∧ x.inputFile ∉ idsOf s.filesToUpload := by
  unfold newFilesToUpload
  rw [List.mem_filter]
  constructor
  · rintro ⟨hf, hq⟩
    refine ⟨hf, ?_⟩
    intro hc
    rcases mem_idsOf.mp hc with ⟨t, ht, hta⟩
    rw [Bool.not_eq_true', List.any_eq_false] at hq
    have := hq t ht
    simp [hta] at this
  · rintro ⟨hf, hq⟩
    refine ⟨hf, ?_⟩
    rw [Bool.not_eq_true', List.any_eq_false]
    intro t ht hc
    exact hq (mem_idsOf.mpr ⟨t, ht, by simpa using hc⟩)

theorem newFilesToUpload_ids_nodup {s : TrackerState} (h : (idsOf s.files).Nodup) :
    (idsOf (newFilesToUpload s)).Nodup :=
  h.sublist (idsOf_filter_sublist _ _)

theorem newFilesToUpload_ids_not_ftu {s : TrackerState} {a : Nat}
    (ha : a ∈ idsOf (newFilesToUpload s)) : a ∉ idsOf s.filesToUpload := by
  rcases mem_idsOf.mp ha with ⟨x, hx, hxa⟩
  exact hxa ▸ (mem_newFilesToUpload.mp hx).2

theorem mem_ids_newFilesToUpload {s : TrackerState} {a : Nat} :
    a ∈ idsOf (newFilesToUpload s) ↔ a ∈ idsOf s.files ∧ a ∉ idsOf s.filesToUpload := by
  constructor
  · intro ha
    rcases mem_idsOf.mp ha with ⟨x, hx, hxa⟩
    obtain ⟨h1, h2⟩ := mem_newFilesToUpload.mp hx
    exact ⟨mem_idsOf.mpr ⟨x, h1, hxa⟩, hxa ▸ h2⟩
  · rintro ⟨ha, hb⟩
    rcases mem_idsOf.mp ha with ⟨x, hx, hxa⟩
    refine mem_idsOf.mpr ⟨x, mem_newFilesToUpload.mpr ⟨hx, ?_⟩, hxa⟩
    rw [hxa]
    exact hb

/-- Reachability invariant of the tracker state: tracked identities are
unique in both lists, `putLog` records exactly the identities of
`filesToUpload`, in-flight transfers are recorded puts of currently
`uploading` entries, terminal entries were initiated, and the client
construction count mirrors the client flag. -/
structure Inv (s : TrackerState) : Prop where
  files_nodup : (idsOf s.files).Nodup
  ftu_nodup : (idsOf s.filesToUpload).Nodup
  putLog_eq : s.putLog = idsOf s.filesToUpload
  inflight_sub : ∀ id ∈ s.inflight, id ∈ s.putLog
  inflight_nodup : s.inflight.Nodup
  inflight_uploading : ∀ id ∈ s.inflight,
    ∃ e, findEntry id s.files = some e ∧ e.status = Status.uploading
  terminal_tracked : ∀ e ∈ s.files, e.status.isTerminal = true →
    e.inputFile ∈ idsOf s.filesToUpload
  ctorCount : s.clientConstructions = if s.clientConstructed then 1 else 0

theorem inv_submit (fs : List (Nat × String)) {s : TrackerState} (h : Inv s) :
    Inv (uploadFiles fs s) := by
  refine ⟨initFiles_ids_nodup _, h.ftu_nodup, h.putLog_eq, h.inflight_sub,
    h.inflight_nodup, ?_, ?_, ?_⟩
  · intro id hid
    obtain ⟨e, he, hst⟩ := h.inflight_uploading id hid
    refine ⟨e, ?_, hst⟩
    show findEntry id (initFiles _) = some e
    rw [findEntry_initFiles]
    exact findEntry_append_left _ he
  · intro e hmem hterm
    have hmem' : e ∈ _ := mem_of_mem_initFilesAux hmem
    rcases List.mem_append.mp hmem' with h1 | h1
    · exact h.terminal_tracked e h1 hterm
    · exfalso
      rcases List.mem_map.mp h1 with ⟨p, _, hp⟩
      rw [← hp] at hterm
      have hterm' : Status.pending.isTerminal = true := hterm
      exact absurd hterm' (by decide)
  · show (if s.clientConstructed then s.clientConstructions else s.clientConstructions + 1)
      = if true then 1 else 0
    by_cases hc : s.clientConstructed
    · rw [if_pos hc, h.ctorCount, if_pos hc]
      simp
    · rw [if_neg hc, h.ctorCount, if_neg hc]
      simp

theorem inv_clear {s : TrackerState} (h : Inv s) : Inv (clearUploadedFiles s).2 := by
  refine ⟨initFiles_ids_nodup _, h.ftu_nodup, h.putLog_eq, h.inflight_sub,
    h.inflight_nodup, ?_, ?_, h.ctorCount⟩
  · intro id hid
    obtain ⟨e, he, hst⟩ := h.inflight_uploading id hid
    refine ⟨e, ?_, hst⟩
    show findEntry id (initFiles _) = some e
    rw [findEntry_initFiles]
    refine findEntry_filter_pos h.files_nodup he ?_
    simp [hst]
  · intro e hmem hterm
    have h1 : e ∈ _ := mem_of_mem_initFilesAux hmem
    exact h.terminal_tracked e (List.mem_of_mem_filter h1) hterm

theorem inv_effect {s : TrackerState} (h : Inv s) : Inv (effectRun s) := by
  by_cases hemp : (newFilesToUpload s).isEmpty = true
  · have heq : effectRun s = s := by
      simp only [effectRun]
      rw [if_pos hemp]
    rw [heq]
    exact h
  · have heff : effectRun s =
        { s with
          filesToUpload := s.filesToUpload ++ newFilesToUpload s
          files := s.files.map (startEntry (newFilesToUpload s))
          inflight := s.inflight ++ idsOf (newFilesToUpload s)
          putLog := s.putLog ++ idsOf (newFilesToUpload s) } := by
      simp only [effectRun]
      rw [if_neg hemp]
    rw [heff]
    have hnfnd : (idsOf (newFilesToUpload s)).Nodup := newFilesToUpload_ids_nodup h.files_nodup
    refine ⟨?_, ?_, ?_, ?_, ?_, ?_, ?_, h.ctorCount⟩
    · show (idsOf (s.files.map (startEntry (newFilesToUpload s)))).Nodup
      rw [idsOf_map _ (startEntry_inputFile _)]
      exact h.files_nodup
    · show (idsOf (s.filesToUpload ++ newFilesToUpload s)).Nodup
      rw [idsOf_append]
      refine h.ftu_nodup.append hnfnd ?_
      intro a ha hb
      exact newFilesToUpload_ids_not_ftu hb ha
    · show s.putLog ++ idsOf (newFilesToUpload s) = idsOf (s.filesToUpload ++ newFilesToUpload s)
      rw [idsOf_append, h.putLog_eq]
    · intro id hid
      rcases List.mem_append.mp hid with h1 | h1
      · exact List.mem_append_left _ (h.inflight_sub id h1)
      · exact List.mem_append_right _ h1
    · refine h.inflight_nodup.append hnfnd ?_
      intro a ha hb
      exact newFilesToUpload_ids_not_ftu hb (h.putLog_eq ▸ h.inflight_sub a ha)
    · intro id hid
      rcases List.mem_append.mp hid with h1 | h1
      · obtain ⟨e, he, hst⟩ := h.inflight_uploading id h1
        refine ⟨e, ?_, hst⟩
        show findEntry id (s.files.map (startEntry (newFilesToUpload s))) = some e
        rw [findEntry_map _ (startEntry_inputFile _), he, Option.map_some']
        rw [startEntry_of_not_mem]
        rw [(findEntry_mem he).2]
        intro hc
        exact newFilesToUpload_ids_not_ftu hc (h.putLog_eq ▸ h.inflight_sub id h1)
      · rcases mem_idsOf.mp h1 with ⟨x, hx, hxid⟩
        have hxf : x ∈ s.files := (mem_newFilesToUpload.mp hx).1
        have hfe : findEntry id s.files = some x := hxid ▸ findEntry_of_mem h.files_nodup hxf
        refine ⟨{ x with status := Status.uploading }, ?_, rfl⟩
        show findEntry id (s.files.map (startEntry (newFilesToUpload s)))
          = some { x with status := Status.uploading }
        rw [findEntry_map _ (startEntry_inputFile _), hfe, Option.map_some']
        rw [startEntry_of_mem (mem_idsOf.mpr ⟨x, hx, rfl⟩)]
    · intro e' hmem hterm
      rcases List.mem_map.mp hmem with ⟨e, hef, hee⟩
      subst hee
      show (startEntry (newFilesToUpload s) e).inputFile
        ∈ idsOf (s.filesToUpload ++ newFilesToUpload s)
      rw [idsOf_append]
      by_cases hin : e.inputFile ∈ idsOf (newFilesToUpload s)
      · rw [startEntry_of_mem hin] at hterm
        have hterm' : Status.uploading.isTerminal = true := hterm
        exact absurd hterm' (by decide)
      · rw [startEntry_of_not_mem hin] at hterm ⊢
        exact List.mem_append_left _ (h.terminal_tracked e hef hterm)

theorem inv_ok {s : TrackerState} {id : Nat} (h : Inv s) (hid : id ∈ s.inflight) :
    Inv (transferOk id s) := by
  refine ⟨?_, h.ftu_nodup, h.putLog_eq, ?_, h.inflight_nodup.erase id, ?_, ?_, h.ctorCount⟩
  · show (idsOf (markFileCompleted id s.files)).Nodup
    rw [markFileCompleted, idsOf_map _ (completeEntry_inputFile _)]
    exact h.files_nodup
  · intro a ha
    exact h.inflight_sub a (List.mem_of_mem_erase ha)
  · intro a ha
    have hmem := (List.Nodup.mem_erase_iff h.inflight_nodup).mp ha
    obtain ⟨e, he, hst⟩ := h.inflight_uploading a hmem.2
    refine ⟨e, ?_, hst⟩
    show findEntry a (markFileCompleted id s.files) = some e
    rw [markFileCompleted, findEntry_map _ (completeEntry_inputFile _), he, Option.map_some']
    rw [completeEntry_of_ne]
    rw [(findEntry_mem he).2]
    exact hmem.1
  · intro e' hmem hterm
    rcases List.mem_map.mp hmem with ⟨e, hef, hee⟩
    subst hee
    show (completeEntry id e).inputFile ∈ idsOf s.filesToUpload
    rw [completeEntry_inputFile]
    by_cases hcond : e.inputFile = id ∧ e.status.isTerminal = false
    · rw [hcond.1, ← h.putLog_eq]
      exact h.inflight_sub id hid
    · unfold completeEntry at hterm
      rw [if_neg hcond] at hterm
      exact h.terminal_tracked e hef hterm

theorem inv_err {s : TrackerState} {id err : Nat} (h : Inv s) (hid : id ∈ s.inflight) :
    Inv (transferErr id err s) := by
  refine ⟨?_, h.ftu_nodup, h.putLog_eq, ?_, h.inflight_nodup.erase id, ?_, ?_, h.ctorCount⟩
  · show (idsOf (markFileFailed id err s.files)).Nodup
    rw [markFileFailed, idsOf_map _ (failEntry_inputFile _ _)]
    exact h.files_nodup
  · intro a ha
    exact h.inflight_sub a (List.mem_of_mem_erase ha)
  · intro a ha
    have hmem := (List.Nodup.mem_erase_iff h.inflight_nodup).mp ha
    obtain ⟨e, he, hst⟩ := h.inflight_uploading a hmem.2
    refine ⟨e, ?_, hst⟩
    show findEntry a (markFileFailed id err s.files) = some e
    rw [markFileFailed, findEntry_map _ (failEntry_inputFile _ _), he, Option.map_some']
    rw [failEntry_of_ne]
    rw [(findEntry_mem he).2]
    exact hmem.1
  · intro e' hmem hterm
    rcases List.mem_map.mp hmem with ⟨e, hef, hee⟩
    subst hee
    show (failEntry id err e).inputFile ∈ idsOf s.filesToUpload
    rw [failEntry_inputFile]
    by_cases hcond : e.inputFile = id ∧ e.status.isTerminal = false
    · rw [hcond.1, ← h.putLog_eq]
      exact h.inflight_sub id hid
    · unfold failEntry at hterm
      rw [if_neg hcond] at hterm
      exact h.terminal_tracked e hef hterm

theorem inv_tick {s : TrackerState} (id size : Nat) (h : Inv s) :
    Inv (progressTick id size s) := by
  refine ⟨?_, h.ftu_nodup, h.putLog_eq, h.inflight_sub, h.inflight_nodup, ?_, ?_, h.ctorCount⟩
  · show (idsOf (updateFileProgress id size s.files)).Nodup
    rw [updateFileProgress, idsOf_map _ (tickEntry_inputFile _ _)]
    exact h.files_nodup
  · intro a ha
    obtain ⟨e, he, hst⟩ := h.inflight_uploading a ha
    refine ⟨tickEntry id size e, ?_, ?_⟩
    · show findEntry a (updateFileProgress id size s.files) = some (tickEntry id size e)
      rw [updateFileProgress, findEntry_map _ (tickEntry_inputFile _ _), he, Option.map_some']
    · rw [tickEntry_status]
      exact hst
  · intro e' hmem hterm
    rcases List.mem_map.mp hmem with ⟨e, hef, hee⟩
    subst hee
    show (tickEntry id size e).inputFile ∈ idsOf s.filesToUpload
    rw [tickEntry_inputFile]
    rw [tickEntry_status] at hterm
    exact h.terminal_tracked e hef hterm

theorem inv_init : Inv initState := by
  refine ⟨?_, ?_, ?_, ?_, ?_, ?_, ?_, ?_⟩ <;> simp [initState, idsOf]

theorem inv_step {s s' : TrackerState} {ev : Event} (h : Inv s) (hs : step s ev = some s') :
    Inv s' := by
  cases ev with
  | submit fs =>
    injection hs with hs
    exact hs ▸ inv_submit fs h
  | clear =>
    injection hs with hs
    exact hs ▸ inv_clear h
  | effect =>
    injection hs with hs
    exact hs ▸ inv_effect h
  | tick id size =>
    simp only [step] at hs
    split at hs
    · injection hs with hs
      exact hs ▸ inv_tick id size h
    · cases hs
  | ok id =>
    simp only [step] at hs
    split at hs
    next hmem =>
      injection hs with hs
      exact hs ▸ inv_ok h hmem
    next => cases hs
  | err id e =>
    simp only [step] at hs
    split at hs
    next hmem =>
      injection hs with hs
      exact hs ▸ inv_err h hmem
    next => cases hs

theorem inv_exec : ∀ (evts : List Event) {s₀ s : TrackerState}, Inv s₀ →
    exec s₀ evts = some s → Inv s := by
  intro evts
  induction evts with
  | nil =>
    intro s₀ s h hx
    rw [exec] at hx
    injection hx with hx
    exact hx ▸ h
  | cons ev rest ih =>
    intro s₀ s h hx
    rw [exec] at hx
    cases hstep : step s₀ ev with
    | none =>
      rw [hstep] at hx
      cases hx
    | some s₁ =>
      rw [hstep] at hx
      exact ih (inv_step h hstep) hx

theorem inv_reachable {evts : List Event} {s : TrackerState}
    (h : exec initState evts = some s) : Inv s :=
  inv_exec evts inv_init h

theorem step_refetchCount {s s' : TrackerState} {ev : Event} (h : step s ev = some s') :
    s'.refetchCount = s.refetchCount + (if ev.isOk = true then 1 else 0) := by
  cases ev with
  | submit fs =>
    injection h with h
    subst h
    rfl
  | clear =>
    injection h with h
    subst h
    rfl
  | effect =>
    injection h with h
    subst h
    show (effectRun s).refetchCount = s.refetchCount + 0
    by_cases hemp : (newFilesToUpload s).isEmpty = true
    · simp only [effectRun]
      rw [if_pos hemp]
      rfl
    · simp only [effectRun]
      rw [if_neg hemp]
      rfl
  | tick id size =>
    simp only [step] at h
    split at h
    · injection h with h
      subst h
      rfl
    · cases h
  | ok id =>
    simp only [step] at h
    split at h
    · injection h with h
      subst h
      rfl
    · cases h
  | err id e =>
    simp only [step] at h
    split at h
    · injection h with h
      subst h
      rfl
    · cases h

theorem exec_refetchCount : ∀ (evts : List Event) (s₀ s : TrackerState),
    exec s₀ evts = some s →
    s.refetchCount = s₀.refetchCount + (evts.filter Event.isOk).length := by
  intro evts
  induction evts with
  | nil =>
    intro s₀ s hx
    rw [exec] at hx
    injection hx with hx
    subst hx
    simp
  | cons ev rest ih =>
    intro s₀ s hx
    rw [exec] at hx
    cases hstep : step s₀ ev with
    | none =>
      rw [hstep] at hx
      cases hx
    | some s₁ =>
      rw [hstep] at hx
      have h1 := ih s₁ s hx
      have h2 := step_refetchCount hstep
      rw [List.filter_cons]
      by_cases hok : Event.isOk ev = true
      · rw [if_pos hok, List.length_cons]
        rw [if_pos hok] at h2
        omega
      · rw [if_neg hok]
        rw [if_neg hok] at h2
        omega

/-- C1 counterexample: on a reachable tracked set whose only entry is
`completed`, `clearUploadedFiles` empties the tracked set yet returns
`true` — refuting "its boolean return value is false if and only if the
tracked set is empty after the removal (in particular, when every entry
is `completed` before the call, it returns false)". -/
theorem clearUploadedFiles_c1_counterexample :
    (exec initState oneCompletedTrace).map
        (fun s => ((clearUploadedFiles s).1, (clearUploadedFiles s).2.files))
      = some (true, []) := by
  rfl

/-- C1 (amended): for every reachable tracked set, `clearUploadedFiles`
removes all and only `completed` entries (the other entries are kept
unchanged, in order), and its boolean return value is `false` iff the
tracked set was empty BEFORE the removal (not after). -/
theorem clearUploadedFiles_clears_completed (evts : List Event) (s : TrackerState)
    (h : exec initState evts = some s) :
    (clearUploadedFiles s).2.files = s.files.filter (fun e => e.status ≠ Status.completed)
    ∧ ((clearUploadedFiles s).1 = false ↔ s.files = []) := by
  have hinv := inv_reachable h
  constructor
  · show initFiles (s.files.filter _) = _
    exact initFiles_eq_self (hinv.files_nodup.sublist (idsOf_filter_sublist _ _))
  · show (!s.files.isEmpty) = false ↔ s.files = []
    cases s.files <;> simp

/-- Witness for the amended C1 on a concrete reachable state. -/
theorem clearUploadedFiles_clears_completed_witness :
    (clearUploadedFiles oneCompletedState).2.files
        = oneCompletedState.files.filter (fun e => e.status ≠ Status.completed)
    ∧ ((clearUploadedFiles oneCompletedState).1 = false ↔ oneCompletedState.files = []) :=
  clearUploadedFiles_clears_completed oneCompletedTrace oneCompletedState (by rfl)

/-- C2: over every executable event sequence — in particular every
sequence of `submit` calls — the tracked set never holds two entries
with the same file identity: the identity lists of `progress.files` and
of `filesToUpload` are duplicate-free. -/
theorem tracked_identity_unique (evts : List Event) (s : TrackerState)
    (h : exec initState evts = some s) :
    (idsOf s.files).Nodup ∧ (idsOf s.filesToUpload).Nodup :=
  ⟨(inv_reachable h).files_nodup, (inv_reachable h).ftu_nodup⟩

/-- Witness for C2 after a resubmission of an already-tracked identity. -/
theorem tracked_identity_unique_witness :
    (idsOf dupSubmitState.files).Nodup ∧ (idsOf dupSubmitState.filesToUpload).Nodup :=
  tracked_identity_unique dupSubmitTrace dupSubmitState (by rfl)

/-- C3: submitting a file list containing an already-tracked identity
leaves that identity's entry completely unchanged (same status, byte
count and error), performs no transfer call itself (`putLog` is
untouched by `uploadFiles`), and the identities the next effect run
newly initiates never include an already-initiated identity. -/
theorem resubmit_frame (s : TrackerState) (fs : List (Nat × String)) (id : Nat)
    (e : FileProgress) (he : findEntry id s.files = some e) :
    findEntry id (uploadFiles fs s).files = some e
    ∧ (uploadFiles fs s).putLog = s.putLog
    ∧ ∀ a ∈ idsOf (newFilesToUpload (uploadFiles fs s)), a ∉ idsOf s.filesToUpload := by
  refine ⟨?_, rfl, ?_⟩
  · show findEntry id (initFiles _) = some e
    rw [findEntry_initFiles]
    exact findEntry_append_left _ he
  · intro a ha
    exact newFilesToUpload_ids_not_ftu (s := uploadFiles fs s) ha

/-- Witness for C3: fileA is `uploading`; submitting [fileA, fileB]
leaves fileA's in-flight entry untouched. -/
theorem resubmit_frame_witness :
    findEntry 0 (uploadFiles [(0, "a"), (1, "b")] uploadingState).files = some uploadingEntry0
    ∧ (uploadFiles [(0, "a"), (1, "b")] uploadingState).putLog = uploadingState.putLog
    ∧ (1 : Nat) ∉ idsOf uploadingState.filesToUpload :=
  have h := resubmit_frame uploadingState [(0, "a"), (1, "b")] 0 uploadingEntry0 (by rfl)
  ⟨h.1, h.2.1, h.2.2 1 (by decide)⟩

/-- C4: `client.put` is invoked exactly once per identity — on every
reachable state the put log has no duplicate identity (and still has
none after one more effect run), and once the effect has run every
tracked identity has exactly one recorded `client.put` invocation. -/
theorem put_exactly_once (evts : List Event) (s : TrackerState)
    (h : exec initState evts = some s) :
    s.putLog.Nodup ∧ (effectRun s).putLog.Nodup
    ∧ ∀ id ∈ idsOf s.files, (effectRun s).putLog.count id = 1 := by
  have hinv := inv_reachable h
  have hp : s.putLog.Nodup := hinv.putLog_eq ▸ hinv.ftu_nodup
  have hinv' : Inv (effectRun s) := inv_effect hinv
  have hp' : (effectRun s).putLog.Nodup := hinv'.putLog_eq ▸ hinv'.ftu_nodup
  refine ⟨hp, hp', ?_⟩
  intro id hid
  have hmem : id ∈ (effectRun s).putLog := by
    by_cases hemp : (newFilesToUpload s).isEmpty = true
    · have heq : effectRun s = s := by
        simp only [effectRun]
        rw [if_pos hemp]
      rw [heq, hinv.putLog_eq]
      by_contra hc
      have hnf : id ∈ idsOf (newFilesToUpload s) := mem_ids_newFilesToUpload.mpr ⟨hid, hc⟩
      rw [List.isEmpty_iff] at hemp
      rw [hemp] at hnf
      cases hnf
    · have heff : (effectRun s).putLog = s.putLog ++ idsOf (newFilesToUpload s) := by
        simp only [effectRun]
        rw [if_neg hemp]
      rw [heff]
      by_cases hftu : id ∈ idsOf s.filesToUpload
      · refine List.mem_append_left _ ?_
        rw [hinv.putLog_eq]
        exact hftu
      · exact List.mem_append_right _ (mem_ids_newFilesToUpload.mpr ⟨hid, hftu⟩)
  exact List.count_eq_one_of_mem hp' hmem

/-- Witness for C4 on a state with one initiated and one pending file. -/
theorem put_exactly_once_witness :
    dupSubmitState.putLog.Nodup ∧ (effectRun dupSubmitState).putLog.Nodup
    ∧ (effectRun dupSubmitState).putLog.count 1 = 1 :=
  have h := put_exactly_once dupSubmitTrace dupSubmitState (by rfl)
  ⟨h.1, h.2.1, h.2.2 1 (by decide)⟩

/-- C5: a transfer error is caught at the single-file transfer call: the
rejection event is handled and yields a successor state (the error is
consumed, never re-thrown to a caller of `submit`), the entry
transitions from `uploading` to `failed` with the error recorded, and
the success continuation is not run for that file (`refetch` count
unchanged, status not `completed`). -/
theorem transfer_error_contained (evts : List Event) (s : TrackerState)
    (h : exec initState evts = some s) (id err : Nat) (hid : id ∈ s.inflight) :
    step s (Event.err id err) = some (transferErr id err s)
    ∧ (∃ e, findEntry id s.files = some e ∧ e.status = Status.uploading
        ∧ findEntry id (transferErr id err s).files
          = some { e with status := Status.failed, error := some err })
    ∧ (transferErr id err s).refetchCount = s.refetchCount := by
  have hinv := inv_reachable h
  obtain ⟨e, he, hst⟩ := hinv.inflight_uploading id hid
  refine ⟨?_, ⟨e, he, hst, ?_⟩, rfl⟩
  · simp only [step]
    rw [if_pos hid]
  · show findEntry id (markFileFailed id err s.files) = _
    rw [markFileFailed, findEntry_map _ (failEntry_inputFile _ _), he, Option.map_some']
    congr 1
    unfold failEntry
    rw [if_pos ⟨(findEntry_mem he).2, by rw [hst]; rfl⟩]

/-- Witness for C5: the in-flight transfer of `uploadingState` fails. -/
theorem transfer_error_contained_witness :
    step uploadingState (Event.err 0 7) = some (transferErr 0 7 uploadingState)
    ∧ (∃ e, findEntry 0 uploadingState.files = some e ∧ e.status = Status.uploading
        ∧ findEntry 0 (transferErr 0 7 uploadingState).files
          = some { e with status := Status.failed, error := some 7 })
    ∧ (transferErr 0 7 uploadingState).refetchCount = uploadingState.refetchCount :=
  transfer_error_contained uploadingTrace uploadingState (by rfl) 0 7 (by decide)

/-- C6: settlements are isolated per file — a transfer failure of `ida`
leaves `idb`'s entry unchanged, a transfer success of `idb` leaves
`ida`'s entry (including a `failed` status and its recorded error)
unchanged, and neither settlement initiates any transfer (`putLog`
unchanged: failure is terminal, with no retry). -/
theorem settlement_isolation (s : TrackerState) (ida idb err : Nat) (hne : ida ≠ idb) :
    findEntry idb (transferErr ida err s).files = findEntry idb s.files
    ∧ findEntry ida (transferOk idb s).files = findEntry ida s.files
    ∧ (transferErr ida err s).putLog = s.putLog
    ∧ (transferOk idb s).putLog = s.putLog := by
  refine ⟨?_, ?_, rfl, rfl⟩
  · show findEntry idb (markFileFailed ida err s.files) = findEntry idb s.files
    rw [markFileFailed, findEntry_map _ (failEntry_inputFile _ _)]
    cases hfe : findEntry idb s.files with
    | none => rfl
    | some e =>
      rw [Option.map_some']
      rw [failEntry_of_ne]
      rw [(findEntry_mem hfe).2]
      exact Ne.symm hne
  · show findEntry ida (markFileCompleted idb s.files) = findEntry ida s.files
    rw [markFileCompleted, findEntry_map _ (completeEntry_inputFile _)]
    cases hfe : findEntry ida s.files with
    | none => rfl
    | some e =>
      rw [Option.map_some']
      rw [completeEntry_of_ne]
      rw [(findEntry_mem hfe).2]
      exact hne

/-- Witness for C6: submit [fileA, fileB]; A's failure and B's success
leave the other file's entry alone. -/
theorem settlement_isolation_witness :
    findEntry 1 (transferErr 0 7 twoUploadingState).files = findEntry 1 twoUploadingState.files
    ∧ findEntry 0 (transferOk 1 twoUploadingState).files = findEntry 0 twoUploadingState.files
    ∧ (transferErr 0 7 twoUploadingState).putLog = twoUploadingState.putLog
    ∧ (transferOk 1 twoUploadingState).putLog = twoUploadingState.putLog :=
  settlement_isolation twoUploadingState 0 1 7 (by decide)

/-- C7: `refetch` is invoked exactly once per file that completes
successfully — on every executed trace the invocation count equals the
number of fulfilled transfer settlements, a single fulfilment increments
it by exactly one in the same handler resumption that marks the file
`completed`, and progress ticks and failures never invoke it. -/
theorem refetch_once_per_completion (evts : List Event) (s : TrackerState)
    (h : exec initState evts = some s) :
    s.refetchCount = (evts.filter Event.isOk).length
    ∧ (∀ id ∈ s.inflight,
        (transferOk id s).refetchCount = s.refetchCount + 1
        ∧ ∃ e, findEntry id (transferOk id s).files = some e ∧ e.status = Status.completed)
    ∧ (∀ id size, (progressTick id size s).refetchCount = s.refetchCount)
    ∧ (∀ id err, (transferErr id err s).refetchCount = s.refetchCount) := by
  have hinv := inv_reachable h
  refine ⟨?_, ?_, fun id size => rfl, fun id err => rfl⟩
  · have hr := exec_refetchCount evts initState s h
    simpa [initState] using hr
  · intro id hid
    obtain ⟨e, he, hst⟩ := hinv.inflight_uploading id hid
    refine ⟨rfl, ⟨{ e with status := Status.completed }, ?_, rfl⟩⟩
    show findEntry id (markFileCompleted id s.files) = _
    rw [markFileCompleted, findEntry_map _ (completeEntry_inputFile _), he, Option.map_some']
    congr 1
    unfold completeEntry
    rw [if_pos ⟨(findEntry_mem he).2, by rw [hst]; rfl⟩]

/-- Witness for C7 on the in-flight demo state. -/
theorem refetch_once_per_completion_witness :
    uploadingState.refetchCount = (uploadingTrace.filter Event.isOk).length
    ∧ ((transferOk 0 uploadingState).refetchCount = uploadingState.refetchCount + 1
        ∧ ∃ e, findEntry 0 (transferOk 0 uploadingState).files = some e
            ∧ e.status = Status.completed)
    ∧ (progressTick 0 5 uploadingState).refetchCount = uploadingState.refetchCount
    ∧ (transferErr 0 7 uploadingState).refetchCount = uploadingState.refetchCount :=
  have h := refetch_once_per_completion uploadingTrace uploadingState (by rfl)
  ⟨h.1, h.2.1 0 (by decide), h.2.2.1 0 5, h.2.2.2 0 7⟩

/-- C8: terminal entries are absorbing — for any reachable state and any
enabled handler invocation, an entry whose status is `completed` or
`failed` is either left exactly as it was (same status, byte count and
error) or, only by the clear operation and only when it is `completed`,
removed. -/
theorem terminal_absorbing (evts : List Event) (s : TrackerState)
    (h : exec initState evts = some s) (ev : Event) (s' : TrackerState)
    (hstep : step s ev = some s') (id : Nat) (e : FileProgress)
    (he : findEntry id s.files = some e) (hterm : e.status.isTerminal = true) :
    findEntry id s'.files = some e
    ∨ (ev = Event.clear ∧ e.status = Status.completed ∧ findEntry id s'.files = none) := by
  have hinv := inv_reachable h
  cases ev with
  | submit fs =>
    left
    injection hstep with hstep
    subst hstep
    show findEntry id (initFiles _) = some e
    rw [findEntry_initFiles]
    exact findEntry_append_left _ he
  | clear =>
    injection hstep with hstep
    subst hstep
    by_cases hcomp : e.status = Status.completed
    · right
      refine ⟨rfl, hcomp, ?_⟩
      show findEntry id (initFiles _) = none
      rw [findEntry_initFiles]
      refine findEntry_filter_neg hinv.files_nodup he ?_
      simp [hcomp]
    · left
      show findEntry id (initFiles _) = some e
      rw [findEntry_initFiles]
      refine findEntry_filter_pos hinv.files_nodup he ?_
      simp [hcomp]
  | effect =>
    left
    injection hstep with hstep
    subst hstep
    by_cases hemp : (newFilesToUpload s).isEmpty = true
    · have heq : effectRun s = s := by
        simp only [effectRun]
        rw [if_pos hemp]
      rw [heq]
      exact he
    · have heff : (effectRun s).files = s.files.map (startEntry (newFilesToUpload s)) := by
        simp only [effectRun]
        rw [if_neg hemp]
      rw [heff, findEntry_map _ (startEntry_inputFile _), he, Option.map_some']
      rw [startEntry_of_not_mem]
      rw [(findEntry_mem he).2]
      intro hc
      have hftu : id ∈ idsOf s.filesToUpload := by
        have hm := hinv.terminal_tracked e (findEntry_mem he).1 hterm
        rwa [(findEntry_mem he).2] at hm
      exact newFilesToUpload_ids_not_ftu hc hftu
  | tick tid size =>
    left
    simp only [step] at hstep
    split at hstep
    · injection hstep with hstep
      subst hstep
      show findEntry id (updateFileProgress tid size s.files) = some e
      rw [updateFileProgress, findEntry_map _ (tickEntry_inputFile _ _), he, Option.map_some',
        tickEntry_of_terminal hterm]
    · cases hstep
  | ok tid =>
    left
    simp only [step] at hstep
    split at hstep
    · injection hstep with hstep
      subst hstep
      show findEntry id (markFileCompleted tid s.files) = some e
      rw [markFileCompleted, findEntry_map _ (completeEntry_inputFile _), he, Option.map_some',
        completeEntry_of_terminal hterm]
    · cases hstep
  | err tid errv =>
    left
    simp only [step] at hstep
    split at hstep
    · injection hstep with hstep
      subst hstep
      show findEntry id (markFileFailed tid errv s.files) = some e
      rw [markFileFailed, findEntry_map _ (failEntry_inputFile _ _), he, Option.map_some',
        failEntry_of_terminal hterm]
    · cases hstep

/-- Witness for C8: the completed entry of `oneCompletedState` is
removed by the clear operation. -/
theorem terminal_absorbing_witness :
    findEntry 0 (clearUploadedFiles oneCompletedState).2.files = some completedEntry0
    ∨ (Event.clear = Event.clear ∧ completedEntry0.status = Status.completed
        ∧ findEntry 0 (clearUploadedFiles oneCompletedState).2.files = none) :=
  terminal_absorbing oneCompletedTrace oneCompletedState (by rfl) Event.clear
    (clearUploadedFiles oneCompletedState).2 (by rfl) 0 completedEntry0 (by rfl) (by rfl)

/-- C9: the transfer client is constructed at most once per process — on
every reachable state the construction count is at most one, any further
`uploadFiles` invocation leaves it at exactly one (the first invocation
constructs, later ones reuse), and once constructed an invocation
constructs nothing new. -/
theorem client_constructed_once (evts : List Event) (s : TrackerState)
    (h : exec initState evts = some s) :
    s.clientConstructions ≤ 1
    ∧ (∀ fs, (uploadFiles fs s).clientConstructions = 1)
    ∧ (s.clientConstructed = true →
        ∀ fs, (uploadFiles fs s).clientConstructions = s.clientConstructions) := by
  have hc := (inv_reachable h).ctorCount
  refine ⟨?_, ?_, ?_⟩
  · rw [hc]
    by_cases hb : s.clientConstructed <;> simp [hb]
  · intro fs
    show (if s.clientConstructed then s.clientConstructions else s.clientConstructions + 1) = 1
    by_cases hb : s.clientConstructed
    · rw [if_pos hb, hc, if_pos hb]
    · rw [if_neg hb, hc, if_neg hb]
  · intro hb fs
    show (if s.clientConstructed then s.clientConstructions else s.clientConstructions + 1)
      = s.clientConstructions
    rw [if_pos hb]

/-- Witness for C9 after the client has been constructed. -/
theorem client_constructed_once_witness :
    uploadingState.clientConstructions ≤ 1
    ∧ (uploadFiles [(2, "c")] uploadingState).clientConstructions = 1
    ∧ (uploadFiles [(2, "c")] uploadingState).clientConstructions
        = uploadingState.clientConstructions :=
  have h := client_constructed_once uploadingTrace uploadingState (by rfl)
  ⟨h.1, h.2.1 [(2, "c")], h.2.2 (by rfl) [(2, "c")]⟩

/-- C10: `getUploadsCallback` always replaces the stored uploads list
with the fetched results; when the page's reported count is zero (falsy)
`totalUploads` keeps its previous value, and only a non-zero count
updates it. -/
theorem totalUploads_kept_on_falsy_count (page : UploadsPage) (s : UploadsListState) :
    (getUploadsCallback page s).uploads = page.results
    ∧ (page.count = 0 → (getUploadsCallback page s).totalUploads = s.totalUploads)
    ∧ (page.count ≠ 0 → (getUploadsCallback page s).totalUploads = page.count) := by
  refine ⟨rfl, ?_, ?_⟩
  · intro h0
    show (if page.count ≠ 0 then page.count else s.totalUploads) = s.totalUploads
    rw [if_neg]
    exact fun hc => hc h0
  · intro h0
    show (if page.count ≠ 0 then page.count else s.totalUploads) = page.count
    rw [if_pos h0]

/-- Witness for C10 at a zero-count and a non-zero-count page. -/
theorem totalUploads_kept_on_falsy_count_witness :
    (getUploadsCallback { results := [5], count := 0 } { uploads := [], totalUploads := 7 }).uploads
        = [5]
    ∧ (getUploadsCallback { results := [5], count := 0 }
        { uploads := [], totalUploads := 7 }).totalUploads = 7
    ∧ (getUploadsCallback { results := [5], count := 3 }
        { uploads := [], totalUploads := 7 }).totalUploads = 3 :=
  ⟨(totalUploads_kept_on_falsy_count { results := [5], count := 0 }
      { uploads := [], totalUploads := 7 }).1,
   (totalUploads_kept_on_falsy_count { results := [5], count := 0 }
      { uploads := [], totalUploads := 7 }).2.1 rfl,
   (totalUploads_kept_on_falsy_count { results := [5], count := 3 }
      { uploads := [], totalUploads := 7 }).2.2 (by decide)⟩

end UploadsTracker
